import Mathlib

/-!
Verification of the DMA-based printf/scanf transport layer
(`src/src/hal_dma_printf.cc`, `src/include/hal_dma_printf/hal_dma_printf.h`).

The C sources are shallowly embedded as follows.

* Byte buffers (the `uint8_t` arrays `g_tx_buffer`, `g_rx_buffer`, and the
  caller-supplied `char*` areas) are total functions `Nat → Nat` from byte
  offsets to byte values; `memcpy` is embedded as the corresponding
  pointwise overwrite of an offset range.
* The compile-time constant `HAL_DMA_PRINTF_BUFFER_SIZE` (default 1024,
  overridable by a compiler flag) is a parameter `N : Nat` of every
  definition.
* The C `int` indices are `Nat`; in every reachable state the source keeps
  them non-negative, and theorems carry the range hypotheses under which
  `Nat` subtraction agrees with `int` subtraction.
* The null checks on `g_huart` and on caller pointers become `Bool` flags
  or `Option` arguments of the syscall hooks.
* The busy-poll `while` loop of `_read` is embedded with an explicit fuel
  argument: `none` means the loop is still running after that many
  iterations, so divergence of the loop is `∀ fuel, ... = none`.
* The external STM32 HAL primitives (`HAL_UART_Transmit_DMA`, the `gState`
  busy flag, the completion callback slots, the `NDTR` countdown register)
  are not part of this repository; they enter the model only through the
  observation traces (`emitted`, `accepted`) and the `busy` flag of
  `TxMachine`, following the hardware collaborator contract stated in the
  specification.
-/

/-- The `memcpy(dest + dstOff, src + srcOff, n)` of the C runtime, as a
pointwise overwrite: positions `dstOff ≤ p < dstOff + n` now read from the
source area, all other positions are untouched. -/
def memcpy (dest : Nat → Nat) (dstOff : Nat) (src : Nat → Nat)
    (srcOff n : Nat) : Nat → Nat :=
  fun p => if dstOff ≤ p ∧ p < dstOff + n then src (srcOff + (p - dstOff)) else dest p

/-- The TX ring state: `g_tx_buffer`, `g_tx_read_idx`, `g_tx_write_idx`. -/
structure TxState where
  buf : Nat → Nat
  read_idx : Nat
  write_idx : Nat

/-- Embedding of `GetTxAvailableBytes` from `hal_dma_printf.cc`. -/
def GetTxAvailableBytes (N : Nat) (st : TxState) : Nat :=
  if st.read_idx ≤ st.write_idx then st.write_idx - st.read_idx
  else N - st.read_idx + st.write_idx

/-- The ring-buffer copy performed by the body of `_write` in
`hal_dma_printf.cc` (lines 168-183): the part of the hook that copies `len`
bytes from `ptr` into `g_tx_buffer` and advances `g_tx_write_idx`.  The
branch structure, the `space_at_end` computation and the clamp of `to_copy`
to `N` are taken verbatim from the source. -/
def writeCopy (N : Nat) (st : TxState) (ptr : Nat → Nat) (len : Nat) : TxState :=
  let space_at_end := N - st.write_idx
  if len ≤ space_at_end then
    { buf := memcpy st.buf st.write_idx ptr 0 len
      read_idx := st.read_idx
      write_idx := (st.write_idx + len) % N }
  else
    let remaining := len - space_at_end
    let to_copy := if N < remaining then N else remaining
    { buf := memcpy (memcpy st.buf st.write_idx ptr 0 space_at_end) 0 ptr space_at_end to_copy
      read_idx := st.read_idx
      write_idx := to_copy }

/-- The `n` bytes of a buffer starting at offset `off`, as a list. -/
def segBytes (buf : Nat → Nat) (off n : Nat) : List Nat :=
  (List.range n).map fun i => buf (off + i)

/-- The `n` bytes of an `N`-byte ring buffer starting at ring position
`s`, reading positions modulo `N`. -/
def ringSeg (N : Nat) (buf : Nat → Nat) (s n : Nat) : List Nat :=
  (List.range n).map fun i => buf ((s + i) % N)

/-- The live region of a ring buffer between a read index and a write
index: contiguous when `r ≤ w`, wrapped otherwise. -/
def ringSlice (N : Nat) (buf : Nat → Nat) (r w : Nat) : List Nat :=
  if r ≤ w then segBytes buf r (w - r)
  else segBytes buf r (N - r) ++ segBytes buf 0 w

/-- Embedding of `StartDmaTransmit` (lines 47-59).  The armed DMA region is
returned as an observation `(offset, length)` alongside the updated TX
state; `HAL_UART_Transmit_DMA` itself is an external primitive. -/
def StartDmaTransmit (N : Nat) (st : TxState) : TxState × Nat × Nat :=
  if st.write_idx < st.read_idx then
    ({ buf := st.buf, read_idx := 0, write_idx := st.write_idx },
      st.read_idx, N - st.read_idx)
  else
    ({ buf := st.buf, read_idx := st.write_idx, write_idx := st.write_idx },
      st.read_idx, st.write_idx - st.read_idx)

/-- The transmit pipeline state together with its observable interaction
with the hardware: `busy` is `gState ≠ HAL_UART_STATE_READY`, `emitted` is
the concatenation of all byte segments passed to `HAL_UART_Transmit_DMA`
so far (in call order), and `accepted` is the concatenation of all byte
sequences accepted from callers of `_write` (ghost observation traces). -/
structure TxMachine where
  tx : TxState
  busy : Bool
  emitted : List Nat
  accepted : List Nat

/-- One call of `StartDmaTransmit` on the machine: the armed segment is
appended to the emission trace and the peripheral becomes busy. -/
def startTx (N : Nat) (m : TxMachine) : TxMachine :=
  let r := StartDmaTransmit N m.tx
  { tx := r.1
    busy := true
    emitted := m.emitted ++ segBytes m.tx.buf r.2.1 r.2.2
    accepted := m.accepted }

/-- The body of `_write` after its guard (lines 168-190): copy the bytes
into the TX ring, then start a DMA transfer if the peripheral is ready. -/
def writeStep (N : Nat) (m : TxMachine) (ptr : Nat → Nat) (len : Nat) : TxMachine :=
  let m1 : TxMachine :=
    { tx := writeCopy N m.tx ptr len
      busy := m.busy
      emitted := m.emitted
      accepted := m.accepted ++ segBytes ptr 0 len }
  if m.busy then m1 else startTx N m1

/-- Embedding of the `OnDmaTransmitComplete` callback (lines 65-70). -/
def OnDmaTransmitComplete (N : Nat) (m : TxMachine) : TxMachine :=
  if m.tx.read_idx ≠ m.tx.write_idx then startTx N m else m

/-- A DMA-complete hardware event: the peripheral returns to the ready
state and then invokes the registered callback, exactly as the HAL does
before calling `TxCpltCallback`. -/
def completeStep (N : Nat) (m : TxMachine) : TxMachine :=
  OnDmaTransmitComplete N
    { tx := m.tx, busy := false, emitted := m.emitted, accepted := m.accepted }

/-- Embedding of the `_write` syscall hook (lines 163-191).  `bound` is
`g_huart ≠ nullptr`; a null data pointer is `none`; `len` keeps its C type
`int`.  The hook returns the C return value together with the new machine
state. -/
def _write (N : Nat) (bound : Bool) (m : TxMachine) (ptr : Option (Nat → Nat))
    (len : Int) : Int × TxMachine :=
  match ptr with
  | none => (0, m)
  | some p =>
    if bound = false ∨ len ≤ 0 then (0, m)
    else (len, writeStep N m p len.toNat)

/-- The TX machine right after a successful `HalDmaPrintfSetup`: all
indices zero, peripheral ready, nothing emitted or accepted yet. -/
def initMachine : TxMachine :=
  { tx := { buf := fun _ => 0, read_idx := 0, write_idx := 0 }
    busy := false
    emitted := []
    accepted := [] }

lemma memcpy_in (dest src : Nat → Nat) (dstOff srcOff n p : Nat)
    (h1 : dstOff ≤ p) (h2 : p < dstOff + n) :
    memcpy dest dstOff src srcOff n p = src (srcOff + (p - dstOff)) := by
  simp [memcpy, h1, h2]

lemma memcpy_out (dest src : Nat → Nat) (dstOff srcOff n p : Nat)
    (h : p < dstOff ∨ dstOff + n ≤ p) :
    memcpy dest dstOff src srcOff n p = dest p := by
  unfold memcpy
  rw [if_neg]
  omega

lemma writeCopy_read_idx (N : Nat) (st : TxState) (ptr : Nat → Nat) (len : Nat) :
    (writeCopy N st ptr len).read_idx = st.read_idx := by
  unfold writeCopy
  dsimp only
  split <;> rfl

lemma writeCopy_eq (N : Nat) (st : TxState) (ptr : Nat → Nat) (len : Nat) :
    writeCopy N st ptr len =
      if len ≤ N - st.write_idx then
        { buf := memcpy st.buf st.write_idx ptr 0 len
          read_idx := st.read_idx
          write_idx := (st.write_idx + len) % N }
      else
        { buf := memcpy (memcpy st.buf st.write_idx ptr 0 (N - st.write_idx)) 0 ptr
                   (N - st.write_idx)
                   (if N < len - (N - st.write_idx) then N else len - (N - st.write_idx))
          read_idx := st.read_idx
          write_idx :=
            if N < len - (N - st.write_idx) then N else len - (N - st.write_idx) } := rfl

lemma writeCopy_buf_in (N : Nat) (st : TxState) (ptr : Nat → Nat) (len : Nat)
    (hw : st.write_idx < N) (hlen : len ≤ N) :
    ∀ i, i < len → (writeCopy N st ptr len).buf ((st.write_idx + i) % N) = ptr i := by
  intro i hi
  rw [writeCopy_eq]
  by_cases hsp : len ≤ N - st.write_idx
  · rw [if_pos hsp]
    dsimp only
    rw [Nat.mod_eq_of_lt (by omega)]
    rw [memcpy_in _ _ _ _ _ _ (by omega) (by omega)]
    congr 1
    omega
  · rw [if_neg hsp]
    dsimp only
    rw [if_neg (by omega)]
    by_cases hcase : st.write_idx + i < N
    · rw [Nat.mod_eq_of_lt hcase]
      rw [memcpy_out _ _ _ _ _ _ (by omega)]
      rw [memcpy_in _ _ _ _ _ _ (by omega) (by omega)]
      congr 1
      omega
    · rw [Nat.mod_eq_sub_mod (by omega), Nat.mod_eq_of_lt (by omega)]
      rw [memcpy_in _ _ _ _ _ _ (by omega) (by omega)]
      congr 1
      omega

lemma writeCopy_buf_out (N : Nat) (st : TxState) (ptr : Nat → Nat) (len : Nat)
    (hw : st.write_idx < N) (hlen : len ≤ N) :
    ∀ p, p < N → (∀ i, i < len → p ≠ (st.write_idx + i) % N) →
      (writeCopy N st ptr len).buf p = st.buf p := by
  intro p hp hout
  rw [writeCopy_eq]
  by_cases hsp : len ≤ N - st.write_idx
  · rw [if_pos hsp]
    dsimp only
    apply memcpy_out
    by_contra hcon
    push_neg at hcon
    refine hout (p - st.write_idx) (by omega) ?_
    have hsum : st.write_idx + (p - st.write_idx) = p := by omega
    rw [hsum, Nat.mod_eq_of_lt hp]
  · rw [if_neg hsp]
    dsimp only
    rw [if_neg (by omega)]
    have houter : p < 0 ∨ 0 + (len - (N - st.write_idx)) ≤ p := by
      right
      by_contra hcon
      push_neg at hcon
      refine hout ((N - st.write_idx) + p) (by omega) ?_
      have hsum : st.write_idx + (N - st.write_idx + p) = N + p := by omega
      rw [hsum, Nat.add_mod_left, Nat.mod_eq_of_lt hp]
    rw [memcpy_out _ _ _ _ _ _ houter]
    apply memcpy_out
    by_contra hcon
    push_neg at hcon
    refine hout (p - st.write_idx) (by omega) ?_
    have hsum : st.write_idx + (p - st.write_idx) = p := by omega
    rw [hsum, Nat.mod_eq_of_lt hp]

lemma writeCopy_buf_high (N : Nat) (st : TxState) (ptr : Nat → Nat) (len : Nat)
    (hw : st.write_idx < N) (hlen : len ≤ N) :
    ∀ p, N ≤ p → (writeCopy N st ptr len).buf p = st.buf p := by
  intro p hp
  rw [writeCopy_eq]
  by_cases hsp : len ≤ N - st.write_idx
  · rw [if_pos hsp]
    dsimp only
    exact memcpy_out _ _ _ _ _ _ (by omega)
  · rw [if_neg hsp]
    dsimp only
    rw [if_neg (by omega)]
    rw [memcpy_out _ _ _ _ _ _ (by omega)]
    exact memcpy_out _ _ _ _ _ _ (by omega)

lemma writeCopy_write_idx (N : Nat) (st : TxState) (ptr : Nat → Nat) (len : Nat)
    (hw : st.write_idx < N) (hlen : len ≤ N) :
    (writeCopy N st ptr len).write_idx = (st.write_idx + len) % N := by
  rw [writeCopy_eq]
  by_cases hsp : len ≤ N - st.write_idx
  · rw [if_pos hsp]
  · rw [if_neg hsp]
    dsimp only
    rw [if_neg (by omega)]
    rw [Nat.mod_eq_sub_mod (by omega), Nat.mod_eq_of_lt (by omega)]
    omega

/-- Claim C1 counterexample: with no transport bound (`bound = false`),
`_write` at a valid pointer and `len = 5` leaves the machine untouched but
returns `0`, not the requested length `5` that the claim asserts. -/
theorem c1_counterexample :
    (_write 1024 false initMachine (some (fun _ => 65)) 5).1 = 0 ∧
    (_write 1024 false initMachine (some (fun _ => 65)) 5).2 = initMachine ∧
    (_write 1024 false initMachine (some (fun _ => 65)) 5).1 ≠ 5 :=
  ⟨rfl, rfl, by decide⟩

/-- Claim C1 (amended): when no transport is bound (`g_huart == nullptr`),
`_write` is a silent no-op on the TX ring state, but it returns `0`, not
the requested length: the guard at line 164 of `hal_dma_printf.cc` returns
`0` for a null handle, a null pointer, or a non-positive length. -/
theorem c1_degraded_write (N : Nat) (m : TxMachine) (ptr : Option (Nat → Nat))
    (len : Int) :
    _write N false m ptr len = (0, m) := by
  cases ptr with
  | none => rfl
  | some p => simp [_write]

/-- Claim C5 counterexample: from the in-range TX write index `0` (buffer
size `1024`), a single `_write` body of length `2048` takes the wraparound
branch, clamps `to_copy` to the full buffer size, and leaves
`g_tx_write_idx = 1024 = N`, outside `[0, N)`. -/
theorem c5_counterexample :
    (writeCopy 1024 { buf := fun _ => 0, read_idx := 0, write_idx := 0 }
        (fun _ => 0) 2048).write_idx = 1024 ∧
    ¬ (writeCopy 1024 { buf := fun _ => 0, read_idx := 0, write_idx := 0 }
        (fun _ => 0) 2048).write_idx < 1024 := by
  constructor
  · rfl
  · decide

/-- Claim C5 (amended): for every initial `g_tx_write_idx` in `[0, N)` and
every positive length, the TX write index left by the copy part of `_write`
lies in `[0, N]`; it equals `N` exactly when the call writes at least
`2N - write_idx` bytes (the wraparound branch with its `to_copy` clamp
saturated), and lies in `[0, N)` in every other case. -/
theorem c5_write_idx_range (N : Nat) (st : TxState) (ptr : Nat → Nat) (len : Nat)
    (hN : 0 < N) (hw : st.write_idx < N) (hlen : 0 < len) :
    (writeCopy N st ptr len).write_idx ≤ N ∧
    ((writeCopy N st ptr len).write_idx = N ↔ 2 * N ≤ st.write_idx + len) := by
  rw [writeCopy_eq]
  by_cases hsp : len ≤ N - st.write_idx
  · rw [if_pos hsp]
    dsimp only
    have hmod : (st.write_idx + len) % N < N := Nat.mod_lt _ hN
    constructor
    · omega
    · constructor
      · intro h
        omega
      · intro h
        omega
  · rw [if_neg hsp]
    dsimp only
    by_cases hcl : N < len - (N - st.write_idx)
    · rw [if_pos hcl]
      constructor
      · omega
      · constructor
        · intro _
          omega
        · intro _
          rfl
    · rw [if_neg hcl]
      constructor
      · omega
      · constructor
        · intro h
          omega
        · intro h
          omega

/-- Witness for C5: a concrete in-range call (buffer size 4, write index 1,
two bytes written) evaluated through the amended theorem. -/
theorem c5_witness :
    (writeCopy 4 { buf := fun _ => 0, read_idx := 0, write_idx := 1 }
        (fun _ => 0) 2).write_idx ≤ 4 ∧
    ((writeCopy 4 { buf := fun _ => 0, read_idx := 0, write_idx := 1 }
        (fun _ => 0) 2).write_idx = 4 ↔
      2 * 4 ≤ ({ buf := fun _ => 0, read_idx := 0, write_idx := 1 } : TxState).write_idx + 2) :=
  c5_write_idx_range 4 { buf := fun _ => 0, read_idx := 0, write_idx := 1 }
    (fun _ => 0) 2 (by decide) (by decide) (by decide)

/-- Claim C7: `StartDmaTransmit` arms exactly one contiguous in-bounds DMA
region.  If `write_idx < read_idx` it arms the segment from `read_idx` to
the buffer end (length `N - read_idx`) and sets `read_idx` to `0`;
otherwise it arms `[read_idx, write_idx)` (length `write_idx - read_idx`)
and sets `read_idx := write_idx`.  In both cases the armed region
`(offset, length)` stays inside the `N`-byte buffer. -/
theorem c7_start_dma_transmit (N : Nat) (st : TxState)
    (hr : st.read_idx < N) (hw : st.write_idx < N) :
    (st.write_idx < st.read_idx →
      StartDmaTransmit N st =
        ({ buf := st.buf, read_idx := 0, write_idx := st.write_idx },
          st.read_idx, N - st.read_idx)) ∧
    (st.read_idx ≤ st.write_idx →
      StartDmaTransmit N st =
        ({ buf := st.buf, read_idx := st.write_idx, write_idx := st.write_idx },
          st.read_idx, st.write_idx - st.read_idx)) ∧
    (StartDmaTransmit N st).2.1 + (StartDmaTransmit N st).2.2 ≤ N := by
  refine ⟨fun h => by rw [StartDmaTransmit, if_pos h],
    fun h => by rw [StartDmaTransmit, if_neg (by omega)], ?_⟩
  rw [StartDmaTransmit]
  split
  · dsimp only
    omega
  · dsimp only
    omega

/-- A concrete wrapped TX state used as the C7 witness input. -/
def txWrapEx : TxState := { buf := fun _ => 0, read_idx := 2, write_idx := 1 }

/-- Witness for C7 at the concrete wrapped state `txWrapEx` with `N = 4`. -/
theorem c7_witness :
    (txWrapEx.write_idx < txWrapEx.read_idx →
      StartDmaTransmit 4 txWrapEx =
        ({ buf := txWrapEx.buf, read_idx := 0, write_idx := txWrapEx.write_idx },
          txWrapEx.read_idx, 4 - txWrapEx.read_idx)) ∧
    (txWrapEx.read_idx ≤ txWrapEx.write_idx →
      StartDmaTransmit 4 txWrapEx =
        ({ buf := txWrapEx.buf, read_idx := txWrapEx.write_idx, write_idx := txWrapEx.write_idx },
          txWrapEx.read_idx, txWrapEx.write_idx - txWrapEx.read_idx)) ∧
    (StartDmaTransmit 4 txWrapEx).2.1 + (StartDmaTransmit 4 txWrapEx).2.2 ≤ 4 :=
  c7_start_dma_transmit 4 txWrapEx (by decide) (by decide)

lemma segBytes_length (buf : Nat → Nat) (off n : Nat) :
    (segBytes buf off n).length = n := by
  simp [segBytes]

lemma ringSeg_add (N : Nat) (buf : Nat → Nat) (s a b : Nat) :
    ringSeg N buf s (a + b) = ringSeg N buf s a ++ ringSeg N buf (s + a) b := by
  unfold ringSeg
  rw [List.range_add, List.map_append, List.map_map]
  congr 1
  apply List.map_congr_left
  intro i _
  simp only [Function.comp_apply]
  congr 2
  omega

lemma ringSlice_eq_ringSeg (N : Nat) (buf : Nat → Nat) (r w : Nat)
    (hr : r < N) (hw : w < N) :
    ringSlice N buf r w = ringSeg N buf r (if r ≤ w then w - r else N - r + w) := by
  unfold ringSlice
  by_cases h : r ≤ w
  · rw [if_pos h, if_pos h]
    unfold segBytes ringSeg
    apply List.map_congr_left
    intro i hi
    have hi' := List.mem_range.mp hi
    rw [Nat.mod_eq_of_lt (by omega)]
  · rw [if_neg h, if_neg h]
    rw [ringSeg_add]
    congr 1
    · unfold segBytes ringSeg
      apply List.map_congr_left
      intro i hi
      have hi' := List.mem_range.mp hi
      rw [Nat.mod_eq_of_lt (by omega)]
    · unfold segBytes ringSeg
      apply List.map_congr_left
      intro i hi
      have hi' := List.mem_range.mp hi
      have hsum : r + (N - r) + i = N + i := by omega
      rw [hsum, Nat.add_mod_left, Nat.mod_eq_of_lt (by omega)]
      congr 1
      omega

lemma ring_pos_ne (N s i j : Nat) (hij : i < j) (hj : j < N) :
    (s + i) % N ≠ (s + j) % N := by
  intro h
  have h2 : i % N = j % N := Nat.ModEq.add_left_cancel' s h
  rw [Nat.mod_eq_of_lt (by omega), Nat.mod_eq_of_lt hj] at h2
  omega

lemma writeCopy_ringSlice (N : Nat) (st : TxState) (ptr : Nat → Nat) (len : Nat)
    (hN : 0 < N) (hr : st.read_idx < N) (hw : st.write_idx < N)
    (hnov : GetTxAvailableBytes N st + len < N) :
    ringSlice N (writeCopy N st ptr len).buf (writeCopy N st ptr len).read_idx
        (writeCopy N st ptr len).write_idx =
      ringSlice N st.buf st.read_idx st.write_idx ++ segBytes ptr 0 len := by
  have hocc : GetTxAvailableBytes N st =
      if st.read_idx ≤ st.write_idx then st.write_idx - st.read_idx
      else N - st.read_idx + st.write_idx := rfl
  have hlen : len ≤ N := by omega
  have hw2 := writeCopy_write_idx N st ptr len hw hlen
  have hr2 := writeCopy_read_idx N st ptr len
  have hwlt : (st.write_idx + len) % N < N := Nat.mod_lt _ hN
  have hrw : (st.read_idx + GetTxAvailableBytes N st) % N = st.write_idx % N := by
    by_cases h : st.read_idx ≤ st.write_idx
    · rw [hocc, if_pos h]
      congr 1
      omega
    · rw [hocc, if_neg h]
      have hsum : st.read_idx + (N - st.read_idx + st.write_idx) = N + st.write_idx := by
        omega
      rw [hsum, Nat.add_mod_left]
  have hpos : ∀ k, (st.read_idx + (GetTxAvailableBytes N st + k)) % N =
      (st.write_idx + k) % N := by
    intro k
    have e1 : st.read_idx + (GetTxAvailableBytes N st + k) =
        st.read_idx + GetTxAvailableBytes N st + k := by omega
    rw [e1, ← Nat.mod_add_mod, hrw, Nat.mod_add_mod]
  have hoccafter :
      (if st.read_idx ≤ (st.write_idx + len) % N
        then (st.write_idx + len) % N - st.read_idx
        else N - st.read_idx + (st.write_idx + len) % N) =
      GetTxAvailableBytes N st + len := by
    by_cases hc : st.write_idx + len < N
    · rw [Nat.mod_eq_of_lt hc] at hwlt ⊢
      by_cases h : st.read_idx ≤ st.write_idx
      · rw [hocc, if_pos h] at hnov ⊢
        rw [if_pos (by omega)]
        omega
      · rw [hocc, if_neg h] at hnov ⊢
        rw [if_neg (by omega)]
        omega
    · have hm : (st.write_idx + len) % N = st.write_idx + len - N := by
        rw [Nat.mod_eq_sub_mod (by omega), Nat.mod_eq_of_lt (by omega)]
      rw [hm] at hwlt ⊢
      by_cases h : st.read_idx ≤ st.write_idx
      · rw [hocc, if_pos h] at hnov ⊢
        rw [if_neg (by omega)]
        omega
      · rw [hocc, if_neg h] at hnov ⊢
        rw [if_neg (by omega)]
        omega
  rw [hr2, hw2]
  rw [ringSlice_eq_ringSeg N _ _ _ hr hwlt, hoccafter]
  rw [ringSlice_eq_ringSeg N _ _ _ hr hw, ← hocc]
  rw [ringSeg_add]
  congr 1
  · unfold ringSeg
    apply List.map_congr_left
    intro i hi
    have hi' := List.mem_range.mp hi
    apply writeCopy_buf_out N st ptr len hw hlen _ (Nat.mod_lt _ hN)
    intro j hj
    rw [← hpos j]
    exact ring_pos_ne N st.read_idx i (GetTxAvailableBytes N st + j) (by omega) (by omega)
  · unfold ringSeg segBytes
    apply List.map_congr_left
    intro i hi
    have hi' := List.mem_range.mp hi
    have e2 : st.read_idx + GetTxAvailableBytes N st + i =
        st.read_idx + (GetTxAvailableBytes N st + i) := by omega
    rw [e2, hpos i]
    rw [writeCopy_buf_in N st ptr len hw hlen i hi']
    congr 1
    omega

/-- The transmit-pipeline invariant: indices stay in range and the bytes
already passed to `HAL_UART_Transmit_DMA` followed by the live (pending)
region of the TX ring are exactly the bytes accepted from `_write` callers,
in order. -/
def TxInv (N : Nat) (m : TxMachine) : Prop :=
  m.tx.read_idx < N ∧ m.tx.write_idx < N ∧
  m.emitted ++ ringSlice N m.tx.buf m.tx.read_idx m.tx.write_idx = m.accepted

lemma startTx_eq_wrap (N : Nat) (m : TxMachine)
    (hc : m.tx.write_idx < m.tx.read_idx) :
    startTx N m =
      { tx := { buf := m.tx.buf, read_idx := 0, write_idx := m.tx.write_idx }
        busy := true
        emitted := m.emitted ++ segBytes m.tx.buf m.tx.read_idx (N - m.tx.read_idx)
        accepted := m.accepted } := by
  unfold startTx StartDmaTransmit
  rw [if_pos hc]

lemma startTx_eq_nowrap (N : Nat) (m : TxMachine)
    (hc : ¬ m.tx.write_idx < m.tx.read_idx) :
    startTx N m =
      { tx := { buf := m.tx.buf, read_idx := m.tx.write_idx, write_idx := m.tx.write_idx }
        busy := true
        emitted := m.emitted ++
          segBytes m.tx.buf m.tx.read_idx (m.tx.write_idx - m.tx.read_idx)
        accepted := m.accepted } := by
  unfold startTx StartDmaTransmit
  rw [if_neg hc]

lemma startTx_inv (N : Nat) (m : TxMachine) (hN : 0 < N) (h : TxInv N m) :
    TxInv N (startTx N m) := by
  obtain ⟨hr, hw, hinv⟩ := h
  by_cases hc : m.tx.write_idx < m.tx.read_idx
  · rw [startTx_eq_wrap N m hc]
    refine ⟨hN, hw, ?_⟩
    dsimp only
    rw [List.append_assoc]
    have hjoin : segBytes m.tx.buf m.tx.read_idx (N - m.tx.read_idx) ++
        ringSlice N m.tx.buf 0 m.tx.write_idx =
        ringSlice N m.tx.buf m.tx.read_idx m.tx.write_idx := by
      unfold ringSlice
      rw [if_pos (Nat.zero_le _), if_neg (by omega), Nat.sub_zero]
    rw [hjoin, hinv]
  · rw [startTx_eq_nowrap N m hc]
    refine ⟨hw, hw, ?_⟩
    dsimp only
    have hempty : ringSlice N m.tx.buf m.tx.write_idx m.tx.write_idx = [] := by
      unfold ringSlice
      rw [if_pos le_rfl, Nat.sub_self]
      rfl
    rw [hempty, List.append_nil, ← hinv]
    congr 1
    unfold ringSlice
    rw [if_pos (by omega)]

lemma writeStep_inv (N : Nat) (m : TxMachine) (ptr : Nat → Nat) (len : Nat)
    (hN : 0 < N) (h : TxInv N m)
    (hnov : GetTxAvailableBytes N m.tx + len < N) :
    TxInv N (writeStep N m ptr len) := by
  obtain ⟨hr, hw, hinv⟩ := h
  have hlen : len ≤ N := by omega
  have hm1 : TxInv N
      { tx := writeCopy N m.tx ptr len
        busy := m.busy
        emitted := m.emitted
        accepted := m.accepted ++ segBytes ptr 0 len } := by
    refine ⟨?_, ?_, ?_⟩
    · dsimp only
      rw [writeCopy_read_idx]
      exact hr
    · dsimp only
      rw [writeCopy_write_idx N m.tx ptr len hw hlen]
      exact Nat.mod_lt _ hN
    · dsimp only
      rw [writeCopy_ringSlice N m.tx ptr len hN hr hw hnov]
      rw [← List.append_assoc, hinv]
  unfold writeStep
  by_cases hb : m.busy
  · rw [if_pos hb]
    exact hm1
  · rw [if_neg hb]
    exact startTx_inv N _ hN hm1

lemma completeStep_inv (N : Nat) (m : TxMachine) (hN : 0 < N) (h : TxInv N m) :
    TxInv N (completeStep N m) := by
  obtain ⟨hr, hw, hinv⟩ := h
  unfold completeStep OnDmaTransmitComplete
  by_cases hc : m.tx.read_idx ≠ m.tx.write_idx
  · rw [if_pos hc]
    exact startTx_inv N _ hN ⟨hr, hw, hinv⟩
  · rw [if_neg hc]
    exact ⟨hr, hw, hinv⟩

/-- A step of the interleaved TX system: an application-context `_write`
call or an interrupt-context DMA-complete event. -/
inductive TxStep where
  | write (ptr : Nat → Nat) (len : Nat)
  | complete

/-- Run a sequence of interleaved steps on the TX machine. -/
def runTx (N : Nat) (m : TxMachine) : List TxStep → TxMachine
  | [] => m
  | TxStep.write ptr len :: s => runTx N (writeStep N m ptr len) s
  | TxStep.complete :: s => runTx N (completeStep N m) s

/-- The no-overrun side condition of the specification: each `_write` in
the trace is positive and fits into the free space of the TX ring at the
moment of the call, so that no pending byte is overwritten.  Completion
events are unconstrained. -/
def OkTrace (N : Nat) (m : TxMachine) : List TxStep → Prop
  | [] => True
  | TxStep.write ptr len :: s =>
      0 < len ∧ GetTxAvailableBytes N m.tx + len < N ∧
        OkTrace N (writeStep N m ptr len) s
  | TxStep.complete :: s => OkTrace N (completeStep N m) s

lemma runTx_inv (N : Nat) : ∀ (s : List TxStep) (m : TxMachine), 0 < N →
    OkTrace N m s → TxInv N m → TxInv N (runTx N m s)
  | [], _, _, _, h => h
  | TxStep.write ptr len :: s, m, hN, hok, h =>
      runTx_inv N s _ hN hok.2.2 (writeStep_inv N m ptr len hN h hok.2.1)
  | TxStep.complete :: s, m, hN, hok, h =>
      runTx_inv N s _ hN hok (completeStep_inv N m hN h)

/-- Claim C8: over every interleaving of `_write` calls and DMA-complete
callbacks from the post-setup state (under the specification's no-overrun
side condition), the bytes passed to `HAL_UART_Transmit_DMA` followed by
the still-pending ring region are exactly the accepted bytes in original
order — so every accepted byte is armed for DMA at most once, exactly once
after the ring drains, and never out of order.  Moreover the completion
callback re-arms a (nonempty) transfer if and only if
`read_idx ≠ write_idx`. -/
theorem c8_no_double_send (N : Nat) (s : List TxStep) (hN : 0 < N)
    (hs : OkTrace N initMachine s) :
    ((runTx N initMachine s).emitted ++
        ringSlice N (runTx N initMachine s).tx.buf
          (runTx N initMachine s).tx.read_idx
          (runTx N initMachine s).tx.write_idx =
      (runTx N initMachine s).accepted) ∧
    ((runTx N initMachine s).tx.read_idx = (runTx N initMachine s).tx.write_idx →
      (runTx N initMachine s).emitted = (runTx N initMachine s).accepted) ∧
    (∀ m : TxMachine, m.tx.read_idx < N →
      ((completeStep N m).emitted = m.emitted ↔
        m.tx.read_idx = m.tx.write_idx)) := by
  have hinit : TxInv N initMachine := by
    refine ⟨hN, hN, ?_⟩
    rfl
  obtain ⟨hr, hw, hinv⟩ := runTx_inv N s initMachine hN hs hinit
  refine ⟨hinv, ?_, ?_⟩
  · intro hdr
    rw [← hinv]
    have hempty : ringSlice N (runTx N initMachine s).tx.buf
        (runTx N initMachine s).tx.read_idx
        (runTx N initMachine s).tx.write_idx = [] := by
      unfold ringSlice
      rw [hdr, if_pos le_rfl, Nat.sub_self]
      rfl
    rw [hempty, List.append_nil]
  · intro m hmr
    unfold completeStep OnDmaTransmitComplete
    by_cases hc : m.tx.read_idx ≠ m.tx.write_idx
    · rw [if_pos hc]
      constructor
      · intro he
        exfalso
        by_cases hcw : m.tx.write_idx < m.tx.read_idx
        · rw [startTx_eq_wrap N
              { tx := m.tx, busy := false, emitted := m.emitted, accepted := m.accepted }
              hcw] at he
          dsimp only at he
          have hl := congrArg List.length he
          rw [List.length_append, segBytes_length] at hl
          omega
        · rw [startTx_eq_nowrap N
              { tx := m.tx, busy := false, emitted := m.emitted, accepted := m.accepted }
              hcw] at he
          dsimp only at he
          have hl := congrArg List.length he
          rw [List.length_append, segBytes_length] at hl
          omega
      · intro he
        exact absurd he hc
    · rw [if_neg hc]
      push_neg at hc
      exact ⟨fun _ => hc, fun _ => rfl⟩

/-- A concrete interleaving used as the C8 witness: one two-byte `_write`
followed by the DMA-complete callback. -/
def txTraceEx : List TxStep := [TxStep.write (fun _ => 9) 2, TxStep.complete]

/-- Witness for C8: the concrete trace `txTraceEx` with buffer size 4. -/
theorem c8_witness :
    ((runTx 4 initMachine txTraceEx).emitted ++
        ringSlice 4 (runTx 4 initMachine txTraceEx).tx.buf
          (runTx 4 initMachine txTraceEx).tx.read_idx
          (runTx 4 initMachine txTraceEx).tx.write_idx =
      (runTx 4 initMachine txTraceEx).accepted) ∧
    ((runTx 4 initMachine txTraceEx).tx.read_idx =
        (runTx 4 initMachine txTraceEx).tx.write_idx →
      (runTx 4 initMachine txTraceEx).emitted =
        (runTx 4 initMachine txTraceEx).accepted) ∧
    (∀ m : TxMachine, m.tx.read_idx < 4 →
      ((completeStep 4 m).emitted = m.emitted ↔
        m.tx.read_idx = m.tx.write_idx)) :=
  c8_no_double_send 4 txTraceEx (by decide) ⟨by decide, by decide, trivial⟩

/-- The input of the C4 counterexample: 2049 bytes whose final byte (at
offset 2048) is `7` and all other bytes are `0`. -/
def c4ptr : Nat → Nat := fun i => if i = 2048 then 7 else 0

/-- Claim C4 counterexample: with the default buffer size `N = 1024`, a
single bound `_write` of 2049 bytes (more than `N`) reports all 2049 bytes
accepted, yet the final input byte (value `7`, at offset 2048 — certainly
among the last `N - 1` bytes written) appears nowhere in the TX buffer:
the wraparound branch copies `ptr[space_at_end .. space_at_end + N)` — a
middle window of the input — and drops the tail, so the buffer does not
retain the final bytes of the input. -/
theorem c4_counterexample :
    (_write 1024 true initMachine (some c4ptr) 2049).1 = 2049 ∧
    ¬ 7 ∈ segBytes (_write 1024 true initMachine (some c4ptr) 2049).2.tx.buf 0 1024 := by
  constructor
  · rfl
  · intro hmem
    have h2 : (_write 1024 true initMachine (some c4ptr) 2049).2.tx.buf =
        memcpy (memcpy (fun _ => 0) 0 c4ptr 0 1024) 0 c4ptr 1024 1024 := rfl
    rw [h2] at hmem
    unfold segBytes at hmem
    rw [List.mem_map] at hmem
    obtain ⟨i, hi, hval⟩ := hmem
    rw [List.mem_range] at hi
    rw [memcpy_in _ _ _ _ _ _ (by omega) (by omega)] at hval
    unfold c4ptr at hval
    rw [if_neg (by omega)] at hval
    omega

/-- Claim C4 (amended): for a bound `_write` whose length is at most `N`,
the copy is a correct ring write: byte `i` of the input lands at ring
position `(write_idx + i) % N`, every other position of the `N`-byte
buffer is untouched, no position outside the `N`-byte buffer is ever
written (no out-of-bounds access), and the write index advances to
`(write_idx + len) % N`.  Hence for sequences of such calls the buffer
retains the last `N` bytes written, each at its ring position.  For a
single call with `len > N` the claim fails (see the counterexample): the
tail `ptr[2N - write_idx .. len)` is dropped, the buffer instead keeping
the middle window `ptr[N - write_idx .. N - write_idx + N)` clipped to
`to_copy` bytes. -/
theorem c4_write_ring (N : Nat) (st : TxState) (ptr : Nat → Nat) (len : Nat)
    (hw : st.write_idx < N) (hlen : len ≤ N) :
    (∀ i, i < len → (writeCopy N st ptr len).buf ((st.write_idx + i) % N) = ptr i) ∧
    (∀ p, p < N → (∀ i, i < len → p ≠ (st.write_idx + i) % N) →
      (writeCopy N st ptr len).buf p = st.buf p) ∧
    (∀ p, N ≤ p → (writeCopy N st ptr len).buf p = st.buf p) ∧
    (writeCopy N st ptr len).write_idx = (st.write_idx + len) % N :=
  ⟨writeCopy_buf_in N st ptr len hw hlen,
   writeCopy_buf_out N st ptr len hw hlen,
   writeCopy_buf_high N st ptr len hw hlen,
   writeCopy_write_idx N st ptr len hw hlen⟩

/-- A concrete near-full TX state used as the C4 witness input: the
two-byte write wraps around the end of the 4-byte buffer. -/
def txMidEx : TxState := { buf := fun _ => 0, read_idx := 0, write_idx := 3 }

/-- Witness for C4 at the concrete wrapping write `txMidEx`, `N = 4`,
`len = 2`. -/
theorem c4_witness :
    (∀ i, i < 2 →
      (writeCopy 4 txMidEx (fun j => j + 5) 2).buf ((txMidEx.write_idx + i) % 4) =
        (fun j => j + 5) i) ∧
    (∀ p, p < 4 → (∀ i, i < 2 → p ≠ (txMidEx.write_idx + i) % 4) →
      (writeCopy 4 txMidEx (fun j => j + 5) 2).buf p = txMidEx.buf p) ∧
    (∀ p, 4 ≤ p → (writeCopy 4 txMidEx (fun j => j + 5) 2).buf p = txMidEx.buf p) ∧
    (writeCopy 4 txMidEx (fun j => j + 5) 2).write_idx = (txMidEx.write_idx + 2) % 4 :=
  c4_write_ring 4 txMidEx (fun j => j + 5) 2 (by decide) (by decide)

/-- The receive-side state visible to `_read`: the RX ring `g_rx_buffer`
with its software read index `g_rx_read_idx`, the echo flag
`g_enable_echo`, the transmit machine that echo re-enters through
`_write`, and the caller's output buffer (the memory behind `ptr`). -/
structure RxState where
  rx_buf : Nat → Nat
  rx_read_idx : Nat
  echo : Bool
  txm : TxMachine
  out : Nat → Nat

/-- Result of one iteration of the `_read` polling loop body: `ret` when
the iteration executes the early `return`, `cont` otherwise. -/
inductive RxIterResult where
  | ret (count : Nat) (st : RxState)
  | cont (count : Nat) (st : RxState)

/-- One iteration of the `while` body of `_read` (lines 212-231) at a
given value of `dma_write_idx`: when the position differs from
`g_rx_read_idx`, consume one byte and advance the read index modulo `N`;
a `\n` (10) or `\r` (13) byte stores a normalized `\n`, is echoed through
`_write` when echo is enabled, and returns immediately; any other byte is
stored, echoed likewise, and the loop continues.  Without a new byte the
body does nothing. -/
def rxConsume (N dma_write_idx rx_count : Nat) (st : RxState) : RxIterResult :=
  if dma_write_idx ≠ st.rx_read_idx then
    let ch := st.rx_buf st.rx_read_idx
    let st1 : RxState := { st with rx_read_idx := (st.rx_read_idx + 1) % N }
    if ch = 10 ∨ ch = 13 then
      let st2 : RxState := { st1 with out := Function.update st1.out rx_count 10 }
      let st3 : RxState :=
        if st2.echo then
          { st2 with txm := (_write N true st2.txm (some (fun _ => st2.out rx_count)) 1).2 }
        else st2
      RxIterResult.ret (rx_count + 1) st3
    else
      let st2 : RxState := { st1 with out := Function.update st1.out rx_count ch }
      let st3 : RxState :=
        if st2.echo then
          { st2 with txm := (_write N true st2.txm (some (fun _ => st2.out rx_count)) 1).2 }
        else st2
      RxIterResult.cont (rx_count + 1) st3
  else RxIterResult.cont rx_count st

/-- The `while (rx_count < len)` loop of `_read` (lines 211-232), with the
hardware write position fixed to the single snapshot the source takes at
line 208, and an explicit fuel bounding the number of iterations
(`none` means the loop is still spinning after `fuel` iterations). -/
def readLoop (N dma_write_idx len : Nat) :
    Nat → Nat → RxState → Option (Nat × RxState)
  | 0, _, _ => none
  | fuel + 1, rx_count, st =>
    if rx_count < len then
      match rxConsume N dma_write_idx rx_count st with
      | RxIterResult.ret c st2 => some (c, st2)
      | RxIterResult.cont c st2 => readLoop N dma_write_idx len fuel c st2
    else some (rx_count, st)

/-- Modelled from the spec: the specification requires the hardware write
position `N - remaining_count` to be recomputed from a fresh volatile read
of the countdown register on every iteration of the busy-poll loop.  This
loop follows the specification text, not the source: `ndtrSeq t` is the
register value the hardware would deliver at the `t`-th poll iteration and
each iteration recomputes `dma_write_idx` from it.  The source instead
snapshots the register once before the loop (compare `readLoop`). -/
def readLoopSpec (N : Nat) (ndtrSeq : Nat → Nat) (len : Nat) :
    Nat → Nat → Nat → RxState → Option (Nat × RxState)
  | 0, _, _, _ => none
  | fuel + 1, t, rx_count, st =>
    if rx_count < len then
      match rxConsume N (N - ndtrSeq t) rx_count st with
      | RxIterResult.ret c st2 => some (c, st2)
      | RxIterResult.cont c st2 => readLoopSpec N ndtrSeq len fuel (t + 1) c st2
    else some (rx_count, st)

/-- Embedding of the `_read` syscall hook (lines 200-234).  `bound` is
`g_huart ≠ nullptr`, `ptrValid` is `ptr ≠ nullptr`, `ndtr` is the value
of `g_huart->hdmarx->Instance->NDTR` at the single register read the
source performs before its loop, and `len` keeps its C type `int`. -/
def _read (N : Nat) (bound : Bool) (ndtr : Nat) (ptrValid : Bool) (len : Int)
    (fuel : Nat) (st : RxState) : Option (Int × RxState) :=
  if bound = false ∨ ptrValid = false ∨ len ≤ 0 then some (0, st)
  else (readLoop N (N - ndtr) len.toNat fuel 0 st).map fun r => ((r.1 : Int), r.2)

/-- Embedding of `HalDmaPrintfEnableEcho` (lines 139-141). -/
def HalDmaPrintfEnableEcho (st : RxState) : RxState := { st with echo := true }

/-- Embedding of `HalDmaPrintfDisableEcho` (lines 143-145). -/
def HalDmaPrintfDisableEcho (st : RxState) : RxState := { st with echo := false }

/-- A concrete empty receive state used by the C2 counterexample. -/
def rx0 : RxState :=
  { rx_buf := fun _ => 0, rx_read_idx := 0, echo := false, txm := initMachine
    out := fun _ => 0 }

/-- Claim C2 counterexample: with no transport bound, `_read` with
`max_len = 7` returns immediately and leaves the state untouched, but it
reports `0` bytes read, not the `7` the claim asserts. -/
theorem c2_counterexample :
    _read 1024 false 1024 true 7 100 rx0 = some (0, rx0) ∧ (0 : Int) ≠ 7 :=
  ⟨rfl, by decide⟩

/-- Claim C2 (amended): when no transport is bound, `_read` returns
immediately without writing anything through the caller's output buffer —
but it reports `0` bytes read, not `max_len`: the guard at line 201 of
`hal_dma_printf.cc` returns `0` for a null handle. -/
theorem c2_degraded_read (N : Nat) (ndtr : Nat) (ptrValid : Bool) (len : Int)
    (fuel : Nat) (st : RxState) :
    _read N false ndtr ptrValid len fuel st = some (0, st) := by
  simp [_read]

lemma readLoop_stuck (N dma len : Nat) (st : RxState) (cnt : Nat)
    (hd : dma = st.rx_read_idx) (hc : cnt < len) :
    ∀ fuel, readLoop N dma len fuel cnt st = none := by
  intro fuel
  induction fuel with
  | zero => rfl
  | succ n ih =>
    unfold readLoop
    rw [if_pos hc]
    unfold rxConsume
    rw [if_neg (by omega)]
    exact ih

/-- The receive state of the C3 scenario: the hardware will deliver
newline bytes into the RX ring, but at the moment `_read` is entered no
byte has been received yet (`rx_read_idx = 0`, write position `0`). -/
def rxStuck : RxState :=
  { rx_buf := fun _ => 10, rx_read_idx := 0, echo := false, txm := initMachine
    out := fun _ => 0 }

/-- The register history of the C3 scenario with `N = 4`: at the first
poll iteration `NDTR` still reads `4` (nothing received); from the next
iteration on it reads `3` (one byte has arrived). -/
def ndtrSeqEx : Nat → Nat := fun t => if t = 0 then 4 else 3

/-- Claim C3 is a code bug: the source computes `dma_write_idx` once,
before the loop (line 208; the `volatile` qualifier on the `const` local
does not re-read the register), so when no byte is available at entry the
loop can never observe hardware progress — for every fuel the embedded
loop is still spinning, even though from the second poll on a byte is
available.  The loop prescribed by the specification, which re-reads
`NDTR` on every iteration (`readLoopSpec`), returns that byte in the very
same scenario. -/
theorem c3_stale_ndtr_snapshot :
    (∀ fuel, _read 4 true 4 true 1 fuel rxStuck = none) ∧
    (readLoopSpec 4 ndtrSeqEx 1 2 0 0 rxStuck).map
        (fun r => (r.1, r.2.out 0)) = some (1, 10) := by
  constructor
  · intro fuel
    have h := readLoop_stuck 4 (4 - 4) 1 rxStuck 0 (by rfl) (by decide) fuel
    unfold _read
    rw [if_neg (by decide)]
    have e : Int.toNat 1 = 1 := rfl
    rw [e, h]
    rfl
  · rfl

lemma writeStep_accepted (N : Nat) (m : TxMachine) (ptr : Nat → Nat) (len : Nat) :
    (writeStep N m ptr len).accepted = m.accepted ++ segBytes ptr 0 len := by
  unfold writeStep
  dsimp only
  split <;> rfl

lemma write1_accepted (N : Nat) (m : TxMachine) (b : Nat) :
    ((_write N true m (some (fun _ => b)) 1).2).accepted = m.accepted ++ [b] := by
  have h : (_write N true m (some (fun _ => b)) 1).2 = writeStep N m (fun _ => b) 1 := by
    unfold _write
    dsimp only
    rw [if_neg (by decide)]
    rfl
  rw [h, writeStep_accepted]
  rfl

lemma readLoop_succ_eq (N dma len fuel cnt : Nat) (st : RxState) :
    readLoop N dma len (fuel + 1) cnt st =
      if cnt < len then
        match rxConsume N dma cnt st with
        | RxIterResult.ret c st2 => some (c, st2)
        | RxIterResult.cont c st2 => readLoop N dma len fuel c st2
      else some (cnt, st) := rfl

lemma rxConsume_nodata (N cnt dma : Nat) (st : RxState)
    (hd : dma = st.rx_read_idx) :
    rxConsume N dma cnt st = RxIterResult.cont cnt st := by
  unfold rxConsume
  rw [if_neg (by omega)]

lemma rxConsume_term (N cnt dma : Nat) (st : RxState)
    (hd : dma ≠ st.rx_read_idx)
    (hterm : st.rx_buf st.rx_read_idx = 10 ∨ st.rx_buf st.rx_read_idx = 13) :
    ∃ st2, rxConsume N dma cnt st = RxIterResult.ret (cnt + 1) st2 ∧
      st2.out = Function.update st.out cnt 10 ∧
      st2.echo = st.echo ∧
      st2.rx_read_idx = (st.rx_read_idx + 1) % N ∧
      st2.txm.accepted = st.txm.accepted ++ (if st.echo then [10] else []) := by
  unfold rxConsume
  dsimp only
  rw [if_pos hd, if_pos hterm]
  by_cases he : st.echo
  · rw [if_pos he, if_pos he]
    refine ⟨_, rfl, rfl, rfl, rfl, ?_⟩
    dsimp only
    rw [write1_accepted, Function.update_same]
  · rw [if_neg he, if_neg he]
    refine ⟨_, rfl, rfl, rfl, rfl, ?_⟩
    rw [List.append_nil]

lemma rxConsume_normal (N cnt dma : Nat) (st : RxState)
    (hd : dma ≠ st.rx_read_idx)
    (hterm : ¬ (st.rx_buf st.rx_read_idx = 10 ∨ st.rx_buf st.rx_read_idx = 13)) :
    ∃ st2, rxConsume N dma cnt st = RxIterResult.cont (cnt + 1) st2 ∧
      st2.out = Function.update st.out cnt (st.rx_buf st.rx_read_idx) ∧
      st2.echo = st.echo ∧
      st2.txm.accepted = st.txm.accepted ++
        (if st.echo then [st.rx_buf st.rx_read_idx] else []) := by
  unfold rxConsume
  dsimp only
  rw [if_pos hd, if_neg hterm]
  by_cases he : st.echo
  · rw [if_pos he, if_pos he]
    refine ⟨_, rfl, rfl, rfl, ?_⟩
    dsimp only
    rw [write1_accepted, Function.update_same]
  · rw [if_neg he, if_neg he]
    refine ⟨_, rfl, rfl, rfl, ?_⟩
    rw [List.append_nil]

lemma readLoop_succ_ret (N dma len fuel cnt : Nat) (st : RxState) (c : Nat)
    (st3 : RxState) (hc : cnt < len)
    (heq : rxConsume N dma cnt st = RxIterResult.ret c st3) :
    readLoop N dma len (fuel + 1) cnt st = some (c, st3) := by
  unfold readLoop
  rw [if_pos hc, heq]

lemma readLoop_succ_cont (N dma len fuel cnt : Nat) (st : RxState) (c : Nat)
    (st3 : RxState) (hc : cnt < len)
    (heq : rxConsume N dma cnt st = RxIterResult.cont c st3) :
    readLoop N dma len (fuel + 1) cnt st = readLoop N dma len fuel c st3 := by
  rw [readLoop_succ_eq, if_pos hc, heq]

lemma readLoop_succ_done (N dma len fuel cnt : Nat) (st : RxState)
    (hc : ¬ cnt < len) :
    readLoop N dma len (fuel + 1) cnt st = some (cnt, st) := by
  unfold readLoop
  rw [if_neg hc]

/-- The receive state of the C6 example: the RX ring holds `"ab\r"`
(bytes 97, 98, 13) and nothing has been consumed yet. -/
def rxAB : RxState :=
  { rx_buf := fun i => if i = 0 then 97 else if i = 1 then 98 else 13
    rx_read_idx := 0, echo := false, txm := initMachine, out := fun _ => 0 }

/-- Claim C6: consuming a carriage-return (13) or line-feed (10) byte
makes `_read` store a single normalized line-feed (10) at the current
output position, leave every other output position untouched, and return
immediately with the count consumed so far including that terminator,
without continuing towards `max_len`.  Concretely, with available input
`"ab\r"` a bound `_read` with `max_len = 10` returns `3` and the output
holds `"ab\n"` (97, 98, 10). -/
theorem c6_line_termination :
    (∀ (N dma len fuel cnt : Nat) (st : RxState), cnt < len →
      dma ≠ st.rx_read_idx →
      (st.rx_buf st.rx_read_idx = 10 ∨ st.rx_buf st.rx_read_idx = 13) →
      ∃ st2, readLoop N dma len (fuel + 1) cnt st = some (cnt + 1, st2) ∧
        st2.out cnt = 10 ∧ ∀ p, p ≠ cnt → st2.out p = st.out p) ∧
    (_read 1024 true 1021 true 10 5 rxAB).map
        (fun r => (r.1, r.2.out 0, r.2.out 1, r.2.out 2)) = some (3, 97, 98, 10) := by
  constructor
  · intro N dma len fuel cnt st hc hd hterm
    obtain ⟨st2, heq, hout, _, _, _⟩ := rxConsume_term N cnt dma st hd hterm
    refine ⟨st2, ?_, ?_, ?_⟩
    · exact readLoop_succ_ret N dma len fuel cnt st (cnt + 1) st2 hc heq
    · rw [hout, Function.update_same]
    · intro p hp
      rw [hout, Function.update_noteq hp]
  · rfl

/-- The receive state of the C6 witness: a lone terminator byte at the
ring head. -/
def rxNl : RxState :=
  { rx_buf := fun _ => 13, rx_read_idx := 0, echo := false, txm := initMachine
    out := fun _ => 0 }

/-- Witness for C6's general part: a `\r` at the head of the RX ring with
`N = 4`, `max_len = 10`, evaluated through the theorem. -/
theorem c6_witness :
    ∃ st2, readLoop 4 1 10 (3 + 1) 0 rxNl = some (0 + 1, st2) ∧
      st2.out 0 = 10 ∧ ∀ p, p ≠ 0 → st2.out p = rxNl.out p :=
  c6_line_termination.1 4 1 10 3 0 rxNl (by decide) (by decide) (by decide)

lemma readLoop_echo_trace (N dma len : Nat) :
    ∀ (fuel cnt : Nat) (st : RxState) (c : Nat) (st2 : RxState),
    readLoop N dma len fuel cnt st = some (c, st2) →
    cnt ≤ c ∧ st2.echo = st.echo ∧ (∀ p, p < cnt → st2.out p = st.out p) ∧
    st2.txm.accepted = st.txm.accepted ++
      (if st.echo then (List.range' cnt (c - cnt)).map st2.out else []) := by
  intro fuel
  induction fuel with
  | zero =>
    intro cnt st c st2 h
    exact absurd h (by simp [readLoop])
  | succ n ih =>
    intro cnt st c st2 h
    by_cases hc : cnt < len
    · by_cases hd : dma ≠ st.rx_read_idx
      · by_cases hterm : st.rx_buf st.rx_read_idx = 10 ∨ st.rx_buf st.rx_read_idx = 13
        · obtain ⟨st3, heq, hout, hecho, hrx, hacc⟩ := rxConsume_term N cnt dma st hd hterm
          rw [readLoop_succ_ret N dma len n cnt st (cnt + 1) st3 hc heq] at h
          rw [Option.some.injEq, Prod.mk.injEq] at h
          obtain ⟨hceq, hsteq⟩ := h
          subst hceq
          subst hsteq
          refine ⟨by omega, hecho, ?_, ?_⟩
          · intro p hp
            rw [hout, Function.update_noteq (by omega)]
          · rw [hacc]
            have h1 : cnt + 1 - cnt = 1 := by omega
            rw [h1]
            by_cases he : st.echo
            · rw [if_pos he, if_pos he]
              have h2 : (List.range' cnt 1).map st3.out = [st3.out cnt] := by
                simp [List.range']
              rw [h2, hout, Function.update_same]
            · rw [if_neg he, if_neg he]
        · obtain ⟨st3, heq, hout, hecho, hacc⟩ := rxConsume_normal N cnt dma st hd hterm
          rw [readLoop_succ_cont N dma len n cnt st (cnt + 1) st3 hc heq] at h
          obtain ⟨hle, hech2, hout2, hacc2⟩ := ih (cnt + 1) st3 c st2 h
          refine ⟨by omega, by rw [hech2, hecho], ?_, ?_⟩
          · intro p hp
            rw [hout2 p (by omega), hout, Function.update_noteq (by omega)]
          · rw [hacc2, hecho, hacc]
            by_cases he : st.echo
            · rw [if_pos he, if_pos he, if_pos he]
              rw [List.append_assoc]
              congr 1
              have hsplit : c - cnt = (c - (cnt + 1)) + 1 := by omega
              rw [hsplit, List.range'_succ, List.map_cons]
              rw [hout2 cnt (by omega), hout, Function.update_same]
              rfl
            · rw [if_neg he, if_neg he, if_neg he, List.append_nil]
      · push_neg at hd
        rw [readLoop_succ_cont N dma len n cnt st cnt st hc
          (rxConsume_nodata N cnt dma st hd)] at h
        exact ih cnt st c st2 h
    · rw [readLoop_succ_done N dma len n cnt st hc] at h
      rw [Option.some.injEq, Prod.mk.injEq] at h
      obtain ⟨hceq, hsteq⟩ := h
      subst hceq
      subst hsteq
      refine ⟨le_rfl, rfl, fun p _ => rfl, ?_⟩
      rw [Nat.sub_self]
      by_cases he : st.echo
      · rw [if_pos he]
        simp [List.range']
      · rw [if_neg he, List.append_nil]

/-- Claim C10: during a bound `_read`, exactly when the echo flag is set,
every consumed byte is — after line-ending normalization — immediately
passed back out through `_write`, one byte per consumed byte in
consumption order: the transmit-side accepted trace grows by precisely
the output bytes `out[0..c)` of the call when echo is on, and does not
grow at all when echo is off.  Consequently, after
`HalDmaPrintfDisableEcho` a subsequent read echoes nothing further, while
the echoes of earlier reads remain in the transmit trace untouched. -/
theorem c10_echo_coupling (N dma len fuel : Nat) (st : RxState) (c : Nat)
    (st2 : RxState) (h : readLoop N dma len fuel 0 st = some (c, st2)) :
    (st.echo = true →
      st2.txm.accepted = st.txm.accepted ++ (List.range' 0 c).map st2.out) ∧
    (st.echo = false → st2.txm.accepted = st.txm.accepted) ∧
    (∀ (dma2 len2 fuel2 c2 : Nat) (st4 : RxState),
      readLoop N dma2 len2 fuel2 0 (HalDmaPrintfDisableEcho st2) = some (c2, st4) →
      st4.txm.accepted = st2.txm.accepted) := by
  obtain ⟨hle, hech, hout, hacc⟩ := readLoop_echo_trace N dma len fuel 0 st c st2 h
  refine ⟨?_, ?_, ?_⟩
  · intro he
    rw [hacc, if_pos he, Nat.sub_zero]
  · intro he
    rw [hacc, if_neg (by rw [he]; exact Bool.false_ne_true), List.append_nil]
  · intro dma2 len2 fuel2 c2 st4 h2
    obtain ⟨_, _, _, hacc2⟩ :=
      readLoop_echo_trace N dma2 len2 fuel2 0 (HalDmaPrintfDisableEcho st2) c2 st4 h2
    rw [hacc2]
    simp [HalDmaPrintfDisableEcho]

/-- The receive state of the C10 witness: echo enabled, the RX ring holds
`"a\n"` (97 then line feeds). -/
def rxEchoEx : RxState :=
  { rx_buf := fun i => if i = 0 then 97 else 10
    rx_read_idx := 0, echo := true, txm := initMachine, out := fun _ => 0 }

/-- The state produced by running the C10 witness read to completion. -/
def rxEchoRes : RxState :=
  ((readLoop 8 2 5 5 0 rxEchoEx).getD (0, rxEchoEx)).2

/-- Witness for C10: the concrete echoing read of `"a\n"` evaluated
through the theorem. -/
theorem c10_witness :
    (rxEchoEx.echo = true →
      rxEchoRes.txm.accepted =
        rxEchoEx.txm.accepted ++ (List.range' 0 2).map rxEchoRes.out) ∧
    (rxEchoEx.echo = false → rxEchoRes.txm.accepted = rxEchoEx.txm.accepted) ∧
    (∀ (dma2 len2 fuel2 c2 : Nat) (st4 : RxState),
      readLoop 8 dma2 len2 fuel2 0 (HalDmaPrintfDisableEcho rxEchoRes) = some (c2, st4) →
      st4.txm.accepted = rxEchoRes.txm.accepted) :=
  c10_echo_coupling 8 2 5 5 rxEchoEx 2 rxEchoRes rfl

/-- Result code `HAL_DMA_PRINTF_OK` of `hal_dma_printf.h`. -/
def HAL_DMA_PRINTF_OK : Int := 0

/-- Result code `HAL_DMA_PRINTF_ERROR_NULL_PTR`. -/
def HAL_DMA_PRINTF_ERROR_NULL_PTR : Int := -1

/-- Result code `HAL_DMA_PRINTF_ERROR_NO_DMA_TX`. -/
def HAL_DMA_PRINTF_ERROR_NO_DMA_TX : Int := -2

/-- Result code `HAL_DMA_PRINTF_ERROR_NO_DMA_RX`. -/
def HAL_DMA_PRINTF_ERROR_NO_DMA_RX : Int := -3

/-- Result code `HAL_DMA_PRINTF_ERROR_NO_CALLBACK`. -/
def HAL_DMA_PRINTF_ERROR_NO_CALLBACK : Int := -4

/-- The parts of `UART_HandleTypeDef` that `SetupUartHandler` inspects:
whether the `hdmatx` and `hdmarx` DMA handles are non-null. -/
structure UartHandle where
  hdmatx : Bool
  hdmarx : Bool

/-- The callback handlers this library registers. -/
inductive UartCallback where
  | onDmaTransmitComplete

/-- The global configuration state touched by setup: the bound handle
`g_huart`, the three ring indices, the echo flag `g_enable_echo`, the two
callback slots of the bound peripheral, and the length of the armed
continuous RX DMA transfer (`none` = reception not armed). -/
structure SetupState where
  huart : Option UartHandle
  tx_read_idx : Nat
  tx_write_idx : Nat
  rx_read_idx : Nat
  enable_echo : Bool
  txCpltCallback : Option UartCallback
  abortTransmitCpltCallback : Option UartCallback
  rxArmedLength : Option Nat

/-- Embedding of `SetupUartHandler` (lines 77-120).
`useRegisterCallbacks` is the compile-time flag
`USE_HAL_UART_REGISTER_CALLBACKS`; when it is `0` the function returns
`HAL_DMA_PRINTF_ERROR_NO_CALLBACK` before any runtime check.  The
best-effort diagnostic `HAL_UART_Transmit` on the error paths does not
touch this state. -/
def SetupUartHandler (N : Nat) (useRegisterCallbacks : Bool) (st : SetupState)
    (huart : Option UartHandle) : Int × SetupState :=
  if useRegisterCallbacks = false then (HAL_DMA_PRINTF_ERROR_NO_CALLBACK, st)
  else
    match huart with
    | none => (HAL_DMA_PRINTF_ERROR_NULL_PTR, st)
    | some h =>
      if h.hdmatx = false then (HAL_DMA_PRINTF_ERROR_NO_DMA_TX, st)
      else if h.hdmarx = false then (HAL_DMA_PRINTF_ERROR_NO_DMA_RX, st)
      else (HAL_DMA_PRINTF_OK,
        { huart := some h
          tx_read_idx := 0
          tx_write_idx := 0
          rx_read_idx := 0
          enable_echo := st.enable_echo
          txCpltCallback := some UartCallback.onDmaTransmitComplete
          abortTransmitCpltCallback := some UartCallback.onDmaTransmitComplete
          rxArmedLength := some N })

/-- Embedding of `HalDmaPrintfSetup` (lines 128-137); the `setvbuf` calls
configure C-runtime stream buffering, not this state. -/
def HalDmaPrintfSetup (N : Nat) (useRegisterCallbacks : Bool) (st : SetupState)
    (huart : Option UartHandle) (enable_echo : Bool) : Int × SetupState :=
  let r := SetupUartHandler N useRegisterCallbacks st huart
  if r.1 = HAL_DMA_PRINTF_OK then (r.1, { r.2 with enable_echo := enable_echo })
  else r

/-- Claim C9: with callback registration enabled, setup validates
fail-fast in the order null handle → missing TX DMA capability → missing
RX DMA capability, returning `HAL_DMA_PRINTF_ERROR_NULL_PTR`,
`HAL_DMA_PRINTF_ERROR_NO_DMA_TX` (whatever the RX capability `b`), and
`HAL_DMA_PRINTF_ERROR_NO_DMA_RX` respectively, and leaving the bound
handle, all three ring indices, callbacks and the echo flag untouched on
every failure; on success (also on re-setup over an arbitrary existing
state `st`) it returns `HAL_DMA_PRINTF_OK`, rebinds the handle, resets
all three ring indices to `0`, registers the transmit-complete and
abort-complete callbacks to the same handler, arms continuous reception
over the full `N`-byte RX buffer, and stores the caller's echo flag. -/
theorem c9_setup_validation (N : Nat) (st : SetupState) (b e : Bool) :
    HalDmaPrintfSetup N true st none e = (HAL_DMA_PRINTF_ERROR_NULL_PTR, st) ∧
    HalDmaPrintfSetup N true st (some ⟨false, b⟩) e =
      (HAL_DMA_PRINTF_ERROR_NO_DMA_TX, st) ∧
    HalDmaPrintfSetup N true st (some ⟨true, false⟩) e =
      (HAL_DMA_PRINTF_ERROR_NO_DMA_RX, st) ∧
    HalDmaPrintfSetup N true st (some ⟨true, true⟩) e =
      (HAL_DMA_PRINTF_OK,
        { huart := some ⟨true, true⟩
          tx_read_idx := 0
          tx_write_idx := 0
          rx_read_idx := 0
          enable_echo := e
          txCpltCallback := some UartCallback.onDmaTransmitComplete
          abortTransmitCpltCallback := some UartCallback.onDmaTransmitComplete
          rxArmedLength := some N }) :=
  ⟨rfl, rfl, rfl, rfl⟩
